import Mathlib

/-!
Verification of the rocket-welder-sdk shared-memory buffer components.

The development shallowly embeds, from the C++ sources:
  * the OIEB diagnostic tool `src/python/oieb_reader.cpp` (structure layout,
    field decoding, the validation pass and the exit-code logic of `main`);
  * the metadata parsing of `RocketWelderClient::parse_metadata` in
    `src/cpp/include/rocket-welder/client.hpp`;
  * `ConnectionString::parse` / `ConnectionString::to_string` in
    `src/cpp/include/rocket-welder/connection_string.hpp`;
  * the payload ring writer/reader protocol, modelled from the spec (the
    protocol implementation itself is not among the SDK sources).

Machine integers are modelled as `Nat`; bytes are `Nat` values below 256;
memory regions are `List Nat`.
-/

namespace RocketWelder

/-! ## Byte-level helpers -/

/-- Byte at index `i` of a byte region (reads past the end give 0,
matching a zero-filled shared-memory segment). -/
def byteAt (bytes : List Nat) (i : Nat) : Nat := bytes.getD i 0

/-- Little-endian read of `w` bytes starting at offset `off`. -/
def readLE (bytes : List Nat) (off : Nat) : Nat → Nat
  | 0 => 0
  | w + 1 => byteAt bytes off + 256 * readLE bytes (off + 1) w

/-! ## OIEB structure (`oieb_reader.cpp`, `struct OIEB`, packed)

Field layout of the packed C struct: `uint32_t oieb_size`, the four
one-byte `ProtocolVersion` fields, eleven `uint64_t` fields, then
`uint64_t reserved[4]`. -/

/-- The packed field layout of `struct OIEB`: field name and width in bytes,
in declaration order. -/
def oiebLayout : List (String × Nat) :=
  [("oieb_size", 4), ("version", 4),
   ("metadata_size", 8), ("metadata_free_bytes", 8), ("metadata_written_bytes", 8),
   ("payload_size", 8), ("payload_free_bytes", 8), ("payload_write_pos", 8),
   ("payload_read_pos", 8), ("payload_written_count", 8), ("payload_read_count", 8),
   ("writer_pid", 8), ("reader_pid", 8),
   ("reserved[0]", 8), ("reserved[1]", 8), ("reserved[2]", 8), ("reserved[3]", 8)]

/-- `sizeof(OIEB)` for the packed struct: the sum of the field widths. -/
def sizeofOIEB : Nat := (oiebLayout.map Prod.snd).sum

/-- Byte offset of a named field: the sum of the widths of the fields
declared before it. -/
def fieldOffset (name : String) : Nat :=
  ((oiebLayout.takeWhile (fun f => f.1 ≠ name)).map Prod.snd).sum

structure ProtocolVersion where
  major : Nat
  minor : Nat
  patch : Nat
  reserved : Nat
deriving Repr, DecidableEq

structure OIEB where
  oieb_size : Nat
  version : ProtocolVersion
  metadata_size : Nat
  metadata_free_bytes : Nat
  metadata_written_bytes : Nat
  payload_size : Nat
  payload_free_bytes : Nat
  payload_write_pos : Nat
  payload_read_pos : Nat
  payload_written_count : Nat
  payload_read_count : Nat
  writer_pid : Nat
  reader_pid : Nat
  reserved : List Nat
deriving Repr, DecidableEq

/-- Decoding the packed little-endian OIEB record from the mapped bytes
(the `OIEB* oieb = static_cast<OIEB*>(addr)` view of the segment). -/
def decodeOIEB (bytes : List Nat) : OIEB where
  oieb_size := readLE bytes 0 4
  version := ⟨byteAt bytes 4, byteAt bytes 5, byteAt bytes 6, byteAt bytes 7⟩
  metadata_size := readLE bytes 8 8
  metadata_free_bytes := readLE bytes 16 8
  metadata_written_bytes := readLE bytes 24 8
  payload_size := readLE bytes 32 8
  payload_free_bytes := readLE bytes 40 8
  payload_write_pos := readLE bytes 48 8
  payload_read_pos := readLE bytes 56 8
  payload_written_count := readLE bytes 64 8
  payload_read_count := readLE bytes 72 8
  writer_pid := readLE bytes 80 8
  reader_pid := readLE bytes 88 8
  reserved := [readLE bytes 96 8, readLE bytes 104 8, readLE bytes 112 8, readLE bytes 120 8]

/-! ## Validation pass of `main` (oieb_reader.cpp lines 121-167) -/

/-- The error/warning lines printed by the validation section, in print order
(lines 124-161 of `oieb_reader.cpp`). -/
def validationLines (o : OIEB) : List String :=
  (if o.oieb_size ≠ 128 then
    ["ERROR: OIEB size field is " ++ toString o.oieb_size ++ " but should be 128"]
   else []) ++
  (if sizeofOIEB ≠ 128 then
    ["ERROR: OIEB struct size is " ++ toString sizeofOIEB ++ " but should be 128"]
   else []) ++
  (if o.version.major ≠ 1 then
    ["WARNING: Unexpected major version " ++ toString o.version.major]
   else []) ++
  (if o.payload_size = 0 then ["ERROR: Payload size is 0"] else []) ++
  (if o.metadata_size = 0 then ["ERROR: Metadata size is 0"] else []) ++
  (if o.payload_write_pos ≥ o.payload_size then
    ["ERROR: Write position " ++ toString o.payload_write_pos ++
     " >= payload size " ++ toString o.payload_size]
   else []) ++
  (if o.payload_read_pos ≥ o.payload_size then
    ["ERROR: Read position " ++ toString o.payload_read_pos ++
     " >= payload size " ++ toString o.payload_size]
   else [])

/-- The final value of the `valid` flag: it starts `true` and each failed
check (not the version warning) sets it to `false`, so it is the conjunction
of the checks. -/
def oiebValid (o : OIEB) : Bool :=
  decide (o.oieb_size = 128) && decide (sizeofOIEB = 128) &&
  decide (o.payload_size ≠ 0) && decide (o.metadata_size ≠ 0) &&
  decide (o.payload_write_pos < o.payload_size) &&
  decide (o.payload_read_pos < o.payload_size)

/-- The overall verdict line (lines 163-167). -/
def verdictLine (valid : Bool) : String :=
  if valid then "OIEB structure appears valid" else "OIEB structure has validation errors"

/-! ## `main` of the diagnostic tool -/

/-- The environment of one invocation of the tool: the command-line
arguments after `argv[0]`, the contents of the shared-memory segment, and
whether each of the three system calls (`shm_open`, `fstat`, `mmap`)
succeeds. -/
structure MainInput where
  args : List String
  segment : List Nat
  openOk : Bool
  fstatOk : Bool
  mmapOk : Bool
deriving Repr, DecidableEq

/-- Result of a run: the process exit code, the validation-section lines
printed (informational field dumps are not modelled), and the contents of
the shared-memory segment when the process exits. -/
structure MainResult where
  exitCode : Nat
  lines : List String
  finalSegment : List Nat
deriving Repr, DecidableEq

/-- Shallow embedding of `main` (oieb_reader.cpp lines 50-178).  The tool
performs no store to the mapping (it is mapped `PROT_READ`), so on every
path the segment is returned unchanged. -/
def mainTool (inp : MainInput) : MainResult :=
  if inp.args.length ≠ 1 then
    { exitCode := 1, lines := [], finalSegment := inp.segment }
  else if ¬ inp.openOk then
    { exitCode := 1, lines := [], finalSegment := inp.segment }
  else if ¬ inp.fstatOk then
    { exitCode := 1, lines := [], finalSegment := inp.segment }
  else if ¬ inp.mmapOk then
    { exitCode := 1, lines := [], finalSegment := inp.segment }
  else
    let o := decodeOIEB inp.segment
    let valid := oiebValid o
    { exitCode := if valid then 0 else 2,
      lines := validationLines o ++ [verdictLine valid],
      finalSegment := inp.segment }

/-- An invocation hits an I/O error when the buffer-name argument is
missing or one of `shm_open`, `fstat`, `mmap` fails. -/
def hasIOError (inp : MainInput) : Bool :=
  decide (inp.args.length ≠ 1) || !inp.openOk || !inp.fstatOk || !inp.mmapOk

/-! ## `RocketWelderClient::parse_metadata` (client.hpp lines 217-268) -/

/-- Shallow embedding of `RocketWelderClient::parse_metadata`.  The
metadata region is the byte list exposed by the buffer reader
(`get_metadata_size()` is its length); the higher-level interpretation of
the descriptor bytes (the JSON and caps parsing of lines 236-264) is
abstracted as `interpret`.  The result is the value of the cached
`video_format_`, `none` meaning "not yet available" (not an error). -/
def parse_metadata {α : Type} (interpret : List Nat → Option α)
    (metadata : List Nat) : Option α :=
  let metadata_size := metadata.length
  if metadata_size ≤ 4 then none
  else
    let json_size := readLE metadata 0 4
    if json_size = 0 ∨ json_size > metadata_size - 4 then none
    else interpret ((metadata.drop 4).take json_size)

/-! ## `ConnectionString` (connection_string.hpp)

Strings are modelled as `List Char`; `std::string_view::npos` positions
become `Option Nat`; throwing constructs return `none`. -/

abbrev Chars := List Char

/-- `Protocol` enum flag values (`None/Shm/Mjpeg/Http/Tcp`), combined with
bitwise or as in `operator|`. -/
def protoNone : Nat := 0

def protoShm : Nat := 1

def protoMjpeg : Nat := 2

def protoHttp : Nat := 4

def protoTcp : Nat := 8

structure ConnectionString where
  protocol : Nat := protoNone
  host : Option Chars := none
  port : Option Nat := none
  path : Option Chars := none
  buffer_name : Option Chars := none
  buffer_size : Nat := 10485760
  metadata_size : Nat := 65536
  mode : Chars := "oneway".toList
deriving Repr, DecidableEq

/-- `std::string_view::find(char)`: index of the first occurrence. -/
def findChar (s : Chars) (c : Char) : Option Nat :=
  match s with
  | [] => none
  | a :: s' => if a = c then some 0 else (findChar s' c).map (· + 1)

/-- `std::string_view::find(substring)`: first index where `pat` occurs. -/
def findSub (s pat : Chars) : Option Nat :=
  if pat.isPrefixOf s then some 0
  else
    match s with
    | [] => none
    | _ :: s' => (findSub s' pat).map (· + 1)

/-- Minimum of two `find` results, `npos` (`none`) being the largest. -/
def minOpt : Option Nat → Option Nat → Option Nat
  | none, b => b
  | some a, none => some a
  | some a, some b => some (min a b)

/-- `extract_scheme`: splits at the first `"://"`, throwing (`none`) when
absent; returns the scheme and the remaining url. -/
def extract_scheme (url : Chars) : Option (Chars × Chars) :=
  match findSub url ("://".toList) with
  | none => none
  | some pos => some (url.take pos, url.drop (pos + 3))

/-- `extract_authority`: everything up to the first `'/'` or `'?'`; the
remaining url keeps that delimiter. -/
def extract_authority (url : Chars) : Chars × Chars :=
  match minOpt (findChar url '/') (findChar url '?') with
  | none => (url, [])
  | some e => (url.take e, url.drop e)

/-- `extract_path`: when the url starts with `'/'`, everything up to the
first `'?'`; otherwise empty with the url unchanged. -/
def extract_path (url : Chars) : Chars × Chars :=
  if url.head? ≠ some '/' then ([], url)
  else
    match findChar url '?' with
    | none => (url, [])
    | some q => (url.take q, url.drop q)

/-- `extract_query`: the part after a leading `'?'`. -/
def extract_query (url : Chars) : Chars :=
  if url.head? = some '?' then url.drop 1 else []

/-- `parse_protocol`: maps the scheme to its flag value, throwing (`none`)
on an unknown scheme. -/
def parse_protocol (scheme : Chars) : Option Nat :=
  if scheme = "shm".toList then some protoShm
  else if scheme = "mjpeg+http".toList then some (Nat.lor protoMjpeg protoHttp)
  else if scheme = "mjpeg+tcp".toList then some (Nat.lor protoMjpeg protoTcp)
  else if scheme = "http".toList then some protoHttp
  else if scheme = "tcp".toList then some protoTcp
  else none

/-- Numeric value of a digit run, as accumulated by `std::stoull`. -/
def digitsVal (l : Chars) : Nat :=
  l.foldl (fun acc c => acc * 10 + (c.toNat - 48)) 0

/-- `std::stoull` on the digit-led strings this parser meets: converts the
leading run of decimal digits; no digits (`invalid_argument`) or a value
past `uint64` range (`out_of_range`) throw, modelled `none`. -/
def stoull (s : Chars) : Option Nat :=
  let ds := s.takeWhile Char.isDigit
  if ds.isEmpty then none
  else if digitsVal ds < 2 ^ 64 then some (digitsVal ds) else none

/-- `static_cast<uint16_t>(std::stoi(s))`: leading digits converted,
throwing past `int` range, then truncated to 16 bits. -/
def stoiU16 (s : Chars) : Option Nat :=
  let ds := s.takeWhile Char.isDigit
  if ds.isEmpty then none
  else if digitsVal ds < 2 ^ 31 then some (digitsVal ds % 2 ^ 16) else none

/-- One loop body of the query parsing (lines 117-129): split the param at
its first `'='` and update the matching field. -/
def applyParam (r : ConnectionString) (param : Chars) : Option ConnectionString :=
  match findChar param '=' with
  | none => some r
  | some eq =>
    let key := param.take eq
    let value := param.drop (eq + 1)
    if key = "buffer_size".toList then
      (stoull value).map fun v => { r with buffer_size := v }
    else if key = "metadata_size".toList then
      (stoull value).map fun v => { r with metadata_size := v }
    else if key = "mode".toList then some { r with mode := value }
    else some r

/-- The query loop (lines 113-135): repeatedly take the param before the
next `'&'`.  Fuel-based recursion; each step consumes at least one
character, so `q.length` fuel suffices. -/
def parseQueryAux : Nat → ConnectionString → Chars → Option ConnectionString
  | 0, r, _ => some r
  | fuel + 1, r, q =>
    if q.isEmpty then some r
    else
      match findChar q '&' with
      | none => applyParam r q
      | some amp =>
        match applyParam r (q.take amp) with
        | none => none
        | some r' => parseQueryAux fuel r' (q.drop (amp + 1))

def parseQuery (r : ConnectionString) (q : Chars) : Option ConnectionString :=
  parseQueryAux q.length r q

/-- Shallow embedding of `ConnectionString::parse` (lines 60-138). -/
def ConnectionString.parse (cs : Chars) : Option ConnectionString :=
  if cs.isEmpty then none
  else
    match extract_scheme cs with
    | none => none
    | some (scheme, url1) =>
      match parse_protocol scheme with
      | none => none
      | some protocol =>
        if protocol = protoShm then
          let (authority, url2) := extract_authority url1
          let (r, url3) :=
            if ¬ authority.isEmpty then
              ({ protocol := protocol, buffer_name := some authority }, url2)
            else
              let (path0, url3) := extract_path url2
              let path1 := if path0.head? = some '/' then path0.drop 1 else path0
              ({ protocol := protocol,
                 buffer_name :=
                   some (if path1.isEmpty then "default".toList else path1) }, url3)
          parseQuery r (extract_query url3)
        else
          let (authority, url2) := extract_authority url1
          let hostPort : Option ConnectionString :=
            match findChar authority ':' with
            | some colon =>
              let portStr := authority.drop (colon + 1)
              if portStr.isEmpty then
                some { protocol := protocol, host := some (authority.take colon) }
              else
                (stoiU16 portStr).map fun p =>
                  { protocol := protocol, host := some (authority.take colon),
                    port := some p }
            | none => some { protocol := protocol, host := some authority }
          match hostPort with
          | none => none
          | some r0 =>
            let (path0, url3) := extract_path url2
            let path1 := if path0.head? = some '/' then path0.drop 1 else path0
            let r1 := if ¬ path1.isEmpty then { r0 with path := some path1 } else r0
            parseQuery r1 (extract_query url3)

/-- One decimal digit character. -/
def digitChar (d : Nat) : Char :=
  match d with
  | 0 => '0'
  | 1 => '1'
  | 2 => '2'
  | 3 => '3'
  | 4 => '4'
  | 5 => '5'
  | 6 => '6'
  | 7 => '7'
  | 8 => '8'
  | _ => '9'

/-- Decimal printing, most significant digit first (fuel-based; `n + 1`
fuel suffices since the argument strictly decreases). -/
def natCharsAux : Nat → Nat → Chars
  | 0, _ => []
  | fuel + 1, n =>
    if n < 10 then [digitChar n]
    else natCharsAux fuel (n / 10) ++ [digitChar (n % 10)]

/-- The decimal rendering `operator<<` gives an unsigned integer. -/
def natChars (n : Nat) : Chars := natCharsAux (n + 1) n

/-- Shallow embedding of `ConnectionString::to_string` (lines 148-175). -/
def ConnectionString.to_string (c : ConnectionString) : Chars :=
  if c.protocol = protoShm then
    "shm://".toList ++ c.buffer_name.getD ("default".toList) ++
    "?buffer_size=".toList ++ natChars c.buffer_size ++
    "&metadata_size=".toList ++ natChars c.metadata_size ++
    "&mode=".toList ++ c.mode
  else if c.protocol = Nat.lor protoMjpeg protoHttp then
    "mjpeg+http://".toList ++ c.host.getD [] ++
    (match c.port with
     | some p => ':' :: natChars p
     | none => []) ++
    (match c.path with
     | some p => '/' :: p
     | none => [])
  else if c.protocol = Nat.lor protoMjpeg protoTcp then
    "mjpeg+tcp://".toList ++ c.host.getD [] ++
    (match c.port with
     | some p => ':' :: natChars p
     | none => []) ++
    (match c.path with
     | some p => '/' :: p
     | none => [])
  else []

/-- A shared-memory `ConnectionString` whose `mode` contains `'&'`, used as
the C10 counterexample input. -/
def c10Bad : ConnectionString :=
  { protocol := protoShm, buffer_name := some ("buf".toList),
    buffer_size := 1, metadata_size := 2, mode := "a&b".toList }

/-- A well-formed shared-memory `ConnectionString`, used as the C10
round-trip witness input. -/
def c10Good : ConnectionString :=
  { protocol := protoShm, buffer_name := some ("buf".toList),
    buffer_size := 123, metadata_size := 45, mode := "duplex".toList }

/-! ## Payload ring writer/reader protocol (C6)

Modelled from the spec: the ring-buffer protocol implementation (the
buffer core consumed through `zerobuffer` reader/writer handles) is not
among the SDK sources; only its callers are.  The model follows §3-§5 of
the spec: a circular byte region of `payload_size` capacity; frame records
are a header (8-byte sequence number, 8-byte length, little-endian)
followed by the raw payload bytes; a reserved sentinel length value is the
wrap marker; the writer owns `payload_write_pos`/`payload_written_count`,
the reader owns `payload_read_pos`/`payload_read_count`;
`payload_free_bytes` is free-space accounting.  Blocking waits carry a
timeout; in the modelled no-overlap scenario a wait that would never be
signalled is `none` (Timeout), as is a detected corruption or sequence
gap. -/

def HEADER_SIZE : Nat := 16

/-- Reserved sentinel header length denoting the wrap marker. -/
def WRAP_SENTINEL : Nat := 2 ^ 64 - 1

/-- Little-endian encoding of `n` into `w` bytes. -/
def encodeLE : Nat → Nat → List Nat
  | 0, _ => []
  | w + 1, n => n % 256 :: encodeLE w (n / 256)

/-- Little-endian value of a byte list. -/
def decodeLEList (l : List Nat) : Nat :=
  l.foldr (fun b acc => b + 256 * acc) 0

/-- Frame header bytes: sequence number then payload length. -/
def encodeHeader (seq len : Nat) : List Nat :=
  encodeLE 8 seq ++ encodeLE 8 len

/-- Decode a 16-byte header into (sequence, length). -/
def decodeHeader (l : List Nat) : Nat × Nat :=
  (decodeLEList (l.take 8), decodeLEList ((l.drop 8).take 8))

/-- Overwrite `data.length` bytes of `ring` starting at `pos`. -/
def writeBytes (ring : List Nat) (pos : Nat) (data : List Nat) : List Nat :=
  ring.take pos ++ (data ++ ring.drop (pos + data.length))

/-- Read `len` bytes of `ring` starting at `pos`. -/
def readBytes (ring : List Nat) (pos len : Nat) : List Nat :=
  (ring.drop pos).take len

/-- The shared state of one payload ring: the OIEB cursors and counters
relevant to framing, plus the ring bytes. -/
structure RingBuffer where
  payloadSize : Nat
  ring : List Nat
  writePos : Nat
  readPos : Nat
  freeBytes : Nat
  writtenCount : Nat
  readCount : Nat
deriving Repr, DecidableEq

/-- A freshly created (zeroed) buffer of payload capacity `n`. -/
def initRing (n : Nat) : RingBuffer :=
  { payloadSize := n, ring := List.replicate n 0, writePos := 0, readPos := 0,
    freeBytes := n, writtenCount := 0, readCount := 0 }

/-- Modelled from the spec (§4.1 `write_frame`): compute the needed
contiguous or wrapped space; fail (`Timeout`) when `payload_free_bytes`
cannot cover it; write a wrap marker first when the frame would overrun
the physical end; write header+payload, advance the write cursor, debit
the free bytes, bump the written count. -/
def writeFrame (s : RingBuffer) (payload : List Nat) : Option RingBuffer :=
  let needed := HEADER_SIZE + payload.length
  let rem := s.payloadSize - s.writePos
  if rem < needed then
    if s.freeBytes < rem + needed then none
    else
      let ring1 :=
        if HEADER_SIZE ≤ rem then
          writeBytes s.ring s.writePos (encodeHeader s.writtenCount WRAP_SENTINEL)
        else s.ring
      let ring2 :=
        writeBytes ring1 0 (encodeHeader s.writtenCount payload.length ++ payload)
      some { s with
             ring := ring2,
             writePos := needed,
             freeBytes := s.freeBytes - (rem + needed),
             writtenCount := s.writtenCount + 1 }
  else
    if s.freeBytes < needed then none
    else
      some { s with
             ring := writeBytes s.ring s.writePos
               (encodeHeader s.writtenCount payload.length ++ payload),
             writePos := s.writePos + needed,
             freeBytes := s.freeBytes - needed,
             writtenCount := s.writtenCount + 1 }

/-- Consume the frame whose header sits at `start` (`skipped` bytes of
dead tail were jumped over by a wrap).  Fails on a wrap marker at the
restart position, a sequence gap, or a length that cannot fit
(CorruptionError). -/
def readFrameAt (s : RingBuffer) (start skipped : Nat) :
    Option (List Nat × RingBuffer) :=
  let hdr := decodeHeader (readBytes s.ring start HEADER_SIZE)
  if hdr.2 = WRAP_SENTINEL then none
  else if hdr.1 ≠ s.readCount % 2 ^ 64 then none
  else if s.payloadSize < start + HEADER_SIZE + hdr.2 then none
  else
    some (readBytes s.ring (start + HEADER_SIZE) hdr.2,
      { s with
        readPos := start + HEADER_SIZE + hdr.2,
        freeBytes := s.freeBytes + skipped + HEADER_SIZE + hdr.2,
        readCount := s.readCount + 1 })

/-- Modelled from the spec (§4.2 `read_frame` plus release): fail
(`Timeout`) unless `payload_written_count > payload_read_count`; at the
read cursor, follow a wrap (no room for a header, or an explicit wrap
marker) to offset 0, then consume the frame there and credit the freed
span. -/
def readFrame (s : RingBuffer) : Option (List Nat × RingBuffer) :=
  if s.writtenCount ≤ s.readCount then none
  else
    let rem := s.payloadSize - s.readPos
    if rem < HEADER_SIZE then readFrameAt s 0 rem
    else
      let hdr := decodeHeader (readBytes s.ring s.readPos HEADER_SIZE)
      if hdr.2 = WRAP_SENTINEL then readFrameAt s 0 rem
      else readFrameAt s s.readPos 0

/-- Write a sequence of frames in order. -/
def writeFrames (s : RingBuffer) : List (List Nat) → Option RingBuffer
  | [] => some s
  | p :: ps =>
    match writeFrame s p with
    | none => none
    | some s' => writeFrames s' ps

/-- Read `k` frames in order. -/
def readFrames (s : RingBuffer) : Nat → Option (List (List Nat))
  | 0 => some []
  | k + 1 =>
    match readFrame s with
    | none => none
    | some (p, s') =>
      match readFrames s' k with
      | none => none
      | some ps => some (p :: ps)

/-- Bytes a frame record occupies: header plus payload. -/
def frameBytes (p : List Nat) : Nat := HEADER_SIZE + p.length

/-- Total ring bytes occupied by a sequence of frame records. -/
def totalSize (ps : List (List Nat)) : Nat := (ps.map frameBytes).sum

/-- Layout predicate: starting at `pos` with sequence number `seq`, the
ring holds the given frame records contiguously. -/
def framesFrom (ring : List Nat) : Nat → Nat → List (List Nat) → Prop
  | _, _, [] => True
  | pos, seq, p :: ps =>
    readBytes ring pos HEADER_SIZE = encodeHeader seq p.length ∧
    readBytes ring (pos + HEADER_SIZE) p.length = p ∧
    framesFrom ring (pos + HEADER_SIZE + p.length) (seq + 1) ps

/-- Invariant of the write phase: after writing `qs` into a fresh buffer
of capacity `n`, the cursors, counters and accounting are linear and the
ring lays out `qs` from offset 0. -/
def WriterInv (n : Nat) (qs : List (List Nat)) (s : RingBuffer) : Prop :=
  s.payloadSize = n ∧ s.ring.length = n ∧ s.writePos = totalSize qs ∧
  s.readPos = 0 ∧ s.freeBytes = n - totalSize qs ∧ totalSize qs ≤ n ∧
  s.writtenCount = qs.length ∧ s.readCount = 0 ∧
  framesFrom s.ring 0 0 qs

/-- Invariant of the read phase: `j` of the `ps` frames consumed. -/
def ReaderInv (n : Nat) (ps : List (List Nat)) (j : Nat) (s : RingBuffer) : Prop :=
  s.payloadSize = n ∧ s.ring.length = n ∧ totalSize ps ≤ n ∧
  s.readPos = totalSize (ps.take j) ∧
  s.writtenCount = ps.length ∧ s.readCount = j ∧ j ≤ ps.length ∧
  framesFrom s.ring 0 0 ps

/-- Concrete frame sequence for the C6 witness. -/
def c6Frames : List (List Nat) := [[1, 2, 3], [4, 5]]

/-- The buffer state after writing `c6Frames` into a fresh 64-byte ring. -/
def c6State : RingBuffer := (writeFrames (initRing 64) c6Frames).getD (initRing 64)

/-- Segment with `oieb_size = 64` used to witness C2. -/
def c2Segment : List Nat := [64, 0, 0, 0] ++ List.replicate 124 0

def c2Input : MainInput :=
  { args := ["buf"], segment := c2Segment, openOk := true, fstatOk := true, mmapOk := true }

/-- Segment with `payload_size = 8` and `payload_write_pos = 9`, used to
witness C4. -/
def c4Segment : List Nat :=
  [128, 0, 0, 0, 1, 0, 0, 0] ++ [8, 0, 0, 0, 0, 0, 0, 0] ++ List.replicate 16 0 ++
  [8, 0, 0, 0, 0, 0, 0, 0] ++ List.replicate 8 0 ++ [9, 0, 0, 0, 0, 0, 0, 0] ++
  List.replicate 72 0

def c4Input : MainInput :=
  { args := ["buf"], segment := c4Segment, openOk := true, fstatOk := true, mmapOk := true }

/-- All-zero regions segment (`payload_size = 0`, `metadata_size = 0`) used
to witness C9. -/
def c9Segment : List Nat := [128, 0, 0, 0, 1, 0, 0, 0] ++ List.replicate 120 0

def c9Input : MainInput :=
  { args := ["buf"], segment := c9Segment, openOk := true, fstatOk := true, mmapOk := true }

/-- Segment whose OIEB passes every check the tool makes while violating
the metadata accounting invariant (`metadata_free_bytes = 0`,
`metadata_written_bytes = 0`, `metadata_size = 64`). -/
def c5Segment : List Nat :=
  [128, 0, 0, 0, 1, 0, 0, 0] ++ [64, 0, 0, 0, 0, 0, 0, 0] ++ List.replicate 16 0 ++
  [16, 0, 0, 0, 0, 0, 0, 0] ++ List.replicate 88 0

def c5Input : MainInput :=
  { args := ["buf"], segment := c5Segment, openOk := true, fstatOk := true, mmapOk := true }

/-- Metadata block with length prefix 3 and descriptor bytes `[7, 8, 9]`,
used to witness C7. -/
def c7Metadata : List Nat := [3, 0, 0, 0, 7, 8, 9]


/-- On a run with no I/O error, `main` reaches the validation section and
produces the mapped-path result. -/
lemma mainTool_mapped (inp : MainInput) (hio : hasIOError inp = false) :
    mainTool inp =
      { exitCode := if oiebValid (decodeOIEB inp.segment) then 0 else 2,
        lines := validationLines (decodeOIEB inp.segment) ++
                 [verdictLine (oiebValid (decodeOIEB inp.segment))],
        finalSegment := inp.segment } := by
  simp only [hasIOError, Bool.or_eq_false_iff, decide_eq_false_iff_not, not_not,
    Bool.not_eq_false] at hio
  obtain ⟨⟨⟨ha, ho⟩, hf⟩, hm⟩ := hio
  simp only [Bool.not_eq_false'] at ho hf hm
  simp [mainTool, ha, ho, hf, hm]

/-- **C1.** The diagnostic tool exits 1 exactly on an I/O error (missing
buffer-name argument, or failing `shm_open`, `fstat` or `mmap`); otherwise
it exits 0 when every validation check passes and 2 when at least one
fails. -/
theorem c1_exit_codes (inp : MainInput) :
    (mainTool inp).exitCode =
      if hasIOError inp then 1
      else if oiebValid (decodeOIEB inp.segment) then 0 else 2 := by
  by_cases h1 : inp.args.length = 1 <;>
    by_cases h2 : inp.openOk <;>
      by_cases h3 : inp.fstatOk <;>
        by_cases h4 : inp.mmapOk <;>
          simp [mainTool, hasIOError, h1, h2, h3, h4]

/-- **C1 witness.** A concrete failing-open run exits 1 and a concrete
valid mapped run exits 0. -/
theorem c1_exit_codes_witness :
    (mainTool { args := [], segment := [], openOk := true,
                fstatOk := true, mmapOk := true }).exitCode =
      (if hasIOError { args := [], segment := [], openOk := true,
                       fstatOk := true, mmapOk := true } then 1
       else if oiebValid (decodeOIEB ([] : List Nat)) then 0 else 2) :=
  c1_exit_codes { args := [], segment := [], openOk := true,
                  fstatOk := true, mmapOk := true }

/-- **C8.** The tool never modifies the shared-memory segment: it is opened
`O_RDONLY` and mapped `PROT_READ`, the embedded `main` performs no store,
and on every exit path the segment contents at exit equal the contents at
entry. -/
theorem c8_segment_unchanged (inp : MainInput) :
    (mainTool inp).finalSegment = inp.segment := by
  unfold mainTool
  repeat' split
  all_goals rfl

/-- **C2.** Whenever the mapped OIEB's `oieb_size` field differs from 128,
the tool prints the size-mismatch error line carrying the actual field
value and the expected value 128, its `valid` flag is false, and it exits
with code 2. -/
theorem c2_size_mismatch (inp : MainInput) (hio : hasIOError inp = false)
    (hsz : (decodeOIEB inp.segment).oieb_size ≠ 128) :
    ("ERROR: OIEB size field is " ++ toString (decodeOIEB inp.segment).oieb_size ++
        " but should be 128") ∈ (mainTool inp).lines ∧
    oiebValid (decodeOIEB inp.segment) = false ∧
    (mainTool inp).exitCode = 2 := by
  have hv : oiebValid (decodeOIEB inp.segment) = false := by
    simp [oiebValid, hsz]
  refine ⟨?_, hv, ?_⟩
  · rw [mainTool_mapped inp hio]
    simp [validationLines, hsz]
  · rw [mainTool_mapped inp hio, hv]
    rfl

/-- **C2 witness.** On a segment whose `oieb_size` field reads 64, the
error line is printed and the tool exits 2. -/
theorem c2_size_mismatch_witness :
    ("ERROR: OIEB size field is " ++ toString (decodeOIEB c2Segment).oieb_size ++
        " but should be 128") ∈ (mainTool c2Input).lines ∧
    oiebValid (decodeOIEB c2Segment) = false ∧
    (mainTool c2Input).exitCode = 2 :=
  c2_size_mismatch c2Input (by decide) (by decide)

/-- **C3.** The packed OIEB record is exactly 128 bytes: the widths in the
declared field order (4-byte `oieb_size`, 4-byte version, eleven 8-byte
fields, four reserved 8-byte words) sum to 128, and each field's offset —
the sum of the widths before it, as used by `decodeOIEB` — matches. -/
theorem c3_oieb_layout :
    sizeofOIEB = 128 ∧
    oiebLayout.map Prod.snd = [4, 4, 8, 8, 8, 8, 8, 8, 8, 8, 8, 8, 8, 8, 8, 8, 8] ∧
    fieldOffset "oieb_size" = 0 ∧
    fieldOffset "version" = 4 ∧
    fieldOffset "metadata_size" = 8 ∧
    fieldOffset "metadata_free_bytes" = 16 ∧
    fieldOffset "metadata_written_bytes" = 24 ∧
    fieldOffset "payload_size" = 32 ∧
    fieldOffset "payload_free_bytes" = 40 ∧
    fieldOffset "payload_write_pos" = 48 ∧
    fieldOffset "payload_read_pos" = 56 ∧
    fieldOffset "payload_written_count" = 64 ∧
    fieldOffset "payload_read_count" = 72 ∧
    fieldOffset "writer_pid" = 80 ∧
    fieldOffset "reader_pid" = 88 ∧
    fieldOffset "reserved[0]" = 96 ∧
    fieldOffset "reserved[1]" = 104 ∧
    fieldOffset "reserved[2]" = 112 ∧
    fieldOffset "reserved[3]" = 120 := by
  decide

/-- **C4.** Whenever `payload_write_pos ≥ payload_size` or
`payload_read_pos ≥ payload_size` in the mapped OIEB, the tool prints the
error naming the offending cursor value and the payload size, its verdict
is invalid, and it exits 2. -/
theorem c4_cursor_out_of_range (inp : MainInput) (hio : hasIOError inp = false)
    (h : (decodeOIEB inp.segment).payload_write_pos ≥ (decodeOIEB inp.segment).payload_size ∨
         (decodeOIEB inp.segment).payload_read_pos ≥ (decodeOIEB inp.segment).payload_size) :
    ((decodeOIEB inp.segment).payload_write_pos ≥ (decodeOIEB inp.segment).payload_size →
       ("ERROR: Write position " ++ toString (decodeOIEB inp.segment).payload_write_pos ++
         " >= payload size " ++ toString (decodeOIEB inp.segment).payload_size) ∈
         (mainTool inp).lines) ∧
    ((decodeOIEB inp.segment).payload_read_pos ≥ (decodeOIEB inp.segment).payload_size →
       ("ERROR: Read position " ++ toString (decodeOIEB inp.segment).payload_read_pos ++
         " >= payload size " ++ toString (decodeOIEB inp.segment).payload_size) ∈
         (mainTool inp).lines) ∧
    oiebValid (decodeOIEB inp.segment) = false ∧
    (mainTool inp).exitCode = 2 := by
  have hv : oiebValid (decodeOIEB inp.segment) = false := by
    rcases h with h | h
    · simp [oiebValid, Nat.not_lt.mpr h]
    · simp [oiebValid, Nat.not_lt.mpr h]
  refine ⟨?_, ?_, hv, ?_⟩
  · intro hw
    rw [mainTool_mapped inp hio]
    simp [validationLines, hw]
  · intro hr
    rw [mainTool_mapped inp hio]
    simp [validationLines, hr]
  · rw [mainTool_mapped inp hio, hv]
    rfl

/-- **C4 witness.** On a segment with write position 9 and payload size 8,
the write-position error line is printed and the tool exits 2. -/
theorem c4_cursor_out_of_range_witness :
    ((decodeOIEB c4Segment).payload_write_pos ≥ (decodeOIEB c4Segment).payload_size →
       ("ERROR: Write position " ++ toString (decodeOIEB c4Segment).payload_write_pos ++
         " >= payload size " ++ toString (decodeOIEB c4Segment).payload_size) ∈
         (mainTool c4Input).lines) ∧
    ((decodeOIEB c4Segment).payload_read_pos ≥ (decodeOIEB c4Segment).payload_size →
       ("ERROR: Read position " ++ toString (decodeOIEB c4Segment).payload_read_pos ++
         " >= payload size " ++ toString (decodeOIEB c4Segment).payload_size) ∈
         (mainTool c4Input).lines) ∧
    oiebValid (decodeOIEB c4Segment) = false ∧
    (mainTool c4Input).exitCode = 2 :=
  c4_cursor_out_of_range c4Input (by decide) (by decide)

/-- **C9.** Whenever the mapped OIEB's `payload_size` or `metadata_size` is
zero, the tool prints the corresponding zero-size error line, its verdict
is invalid, and it exits 2. -/
theorem c9_zero_capacity_rejected (inp : MainInput) (hio : hasIOError inp = false)
    (h : (decodeOIEB inp.segment).payload_size = 0 ∨
         (decodeOIEB inp.segment).metadata_size = 0) :
    ((decodeOIEB inp.segment).payload_size = 0 →
       "ERROR: Payload size is 0" ∈ (mainTool inp).lines) ∧
    ((decodeOIEB inp.segment).metadata_size = 0 →
       "ERROR: Metadata size is 0" ∈ (mainTool inp).lines) ∧
    oiebValid (decodeOIEB inp.segment) = false ∧
    (mainTool inp).exitCode = 2 := by
  have hv : oiebValid (decodeOIEB inp.segment) = false := by
    rcases h with h | h
    · simp [oiebValid, h]
    · simp [oiebValid, h]
  refine ⟨?_, ?_, hv, ?_⟩
  · intro hp
    rw [mainTool_mapped inp hio]
    simp [validationLines, hp]
  · intro hm
    rw [mainTool_mapped inp hio]
    simp [validationLines, hm]
  · rw [mainTool_mapped inp hio, hv]
    rfl

/-- **C9 witness.** On a segment with both region sizes zero, both error
lines are printed and the tool exits 2. -/
theorem c9_zero_capacity_rejected_witness :
    ((decodeOIEB c9Segment).payload_size = 0 →
       "ERROR: Payload size is 0" ∈ (mainTool c9Input).lines) ∧
    ((decodeOIEB c9Segment).metadata_size = 0 →
       "ERROR: Metadata size is 0" ∈ (mainTool c9Input).lines) ∧
    oiebValid (decodeOIEB c9Segment) = false ∧
    (mainTool c9Input).exitCode = 2 :=
  c9_zero_capacity_rejected c9Input (by decide) (by decide)

/-- **C5 counterexample.** The tool does not validate the metadata
accounting invariant: on a mapped OIEB with
`metadata_free_bytes + metadata_written_bytes ≠ metadata_size` but all
checked conditions fine, it exits 0, not 2. -/
theorem c5_metadata_invariant_unchecked_counterexample :
    (decodeOIEB c5Segment).metadata_free_bytes +
        (decodeOIEB c5Segment).metadata_written_bytes ≠
      (decodeOIEB c5Segment).metadata_size ∧
    (mainTool c5Input).exitCode = 0 := by
  decide

/-- **C5 (amended).** The tool's validation checks are exactly:
`oieb_size = 128`, `sizeof(OIEB) = 128`, `payload_size ≠ 0`,
`metadata_size ≠ 0`, `payload_write_pos < payload_size` and
`payload_read_pos < payload_size`; it does not check
`metadata_free_bytes + metadata_written_bytes = metadata_size`, and any
mapped OIEB passing the six checks exits with code 0 even when that
invariant is violated. -/
theorem c5_amended_checks_only (inp : MainInput) (hio : hasIOError inp = false)
    (h1 : (decodeOIEB inp.segment).oieb_size = 128)
    (h2 : (decodeOIEB inp.segment).payload_size ≠ 0)
    (h3 : (decodeOIEB inp.segment).metadata_size ≠ 0)
    (h4 : (decodeOIEB inp.segment).payload_write_pos < (decodeOIEB inp.segment).payload_size)
    (h5 : (decodeOIEB inp.segment).payload_read_pos < (decodeOIEB inp.segment).payload_size) :
    (mainTool inp).exitCode = 0 := by
  have hv : oiebValid (decodeOIEB inp.segment) = true := by
    simp [oiebValid, h1, h2, h3, h4, h5, sizeofOIEB, oiebLayout]
  rw [mainTool_mapped inp hio, hv]
  rfl

/-- **C5 witness (amended).** The counterexample segment passes all six
checks, violates the metadata accounting invariant, and the tool exits 0. -/
theorem c5_amended_checks_only_witness :
    (mainTool c5Input).exitCode = 0 :=
  c5_amended_checks_only c5Input (by decide) (by decide) (by decide) (by decide)
    (by decide) (by decide)

/-- **C7.** `parse_metadata` interprets the first 4 bytes of the metadata
block as a little-endian length `N` and hands exactly the following `N`
bytes to the higher-level descriptor interpretation; when `N = 0`,
`N > metadata_size - 4`, or the block is at most 4 bytes, the cached video
format stays unset (`none`). -/
theorem c7_metadata_length_rule {α : Type} (interpret : List Nat → Option α)
    (metadata : List Nat) :
    (metadata.length ≤ 4 ∨ readLE metadata 0 4 = 0 ∨
        readLE metadata 0 4 > metadata.length - 4 →
      parse_metadata interpret metadata = none) ∧
    (4 < metadata.length → readLE metadata 0 4 ≠ 0 →
        readLE metadata 0 4 ≤ metadata.length - 4 →
      parse_metadata interpret metadata =
        interpret ((metadata.drop 4).take (readLE metadata 0 4)) ∧
      ((metadata.drop 4).take (readLE metadata 0 4)).length = readLE metadata 0 4) := by
  constructor
  · intro h
    unfold parse_metadata
    rcases h with h | h | h
    · simp [h]
    · by_cases hlen : metadata.length ≤ 4 <;> simp [hlen, h]
    · by_cases hlen : metadata.length ≤ 4
      · simp [hlen]
      · simp only [hlen, if_false]
        rw [if_pos (Or.inr h)]
  · intro hlen hz hfit
    unfold parse_metadata
    have h1 : ¬ metadata.length ≤ 4 := by omega
    have h2 : ¬ (readLE metadata 0 4 = 0 ∨
        readLE metadata 0 4 > metadata.length - 4) := by
      push_neg
      exact ⟨hz, hfit⟩
    rw [if_neg h1, if_neg h2]
    refine ⟨rfl, ?_⟩
    simp only [List.length_take, List.length_drop]
    omega

/-- **C7 witness.** On a 7-byte block whose prefix reads 3, parsing hands
exactly the 3 descriptor bytes to the interpretation; the empty block
parses to `none`. -/
theorem c7_metadata_length_rule_witness :
    parse_metadata (α := List Nat) some c7Metadata = some [7, 8, 9] ∧
    parse_metadata (α := List Nat) some [] = none :=
  ⟨(((c7_metadata_length_rule (α := List Nat) some c7Metadata).2
      (by decide) (by decide) (by decide)).1).trans (by decide),
   (c7_metadata_length_rule (α := List Nat) some []).1 (by decide)⟩

/-! ### Helper lemmas for the `ConnectionString` round trip -/

lemma findChar_append_of_ne (a b : Chars) (c : Char) (h : ∀ x ∈ a, x ≠ c) :
    findChar (a ++ b) c = (findChar b c).map (· + a.length) := by
  induction a with
  | nil =>
    cases hb : findChar b c <;> simp [hb]
  | cons x a ih =>
    have hx : x ≠ c := h x (by simp)
    have h' : ∀ y ∈ a, y ≠ c := fun y hy => h y (by simp [hy])
    rw [List.cons_append, findChar, if_neg hx, ih h']
    cases hb : findChar b c
    · simp [hb]
    · simp [hb]
      omega

lemma findChar_eq_none (a : Chars) (c : Char) (h : ∀ x ∈ a, x ≠ c) :
    findChar a c = none := by
  induction a with
  | nil => rfl
  | cons x a ih =>
    have hx : x ≠ c := h x (by simp)
    have h' : ∀ y ∈ a, y ≠ c := fun y hy => h y (by simp [hy])
    rw [findChar, if_neg hx, ih h']
    rfl

lemma findChar_append_self (a b : Chars) (c : Char) (h : ∀ x ∈ a, x ≠ c) :
    findChar (a ++ c :: b) c = some a.length := by
  rw [findChar_append_of_ne a _ c h, findChar, if_pos rfl]
  simp

lemma drop_append_cons (a b : Chars) (c : Char) :
    (a ++ c :: b).drop (a.length + 1) = b := by
  have h1 : a ++ c :: b = (a ++ [c]) ++ b := by simp
  have h2 : (a ++ [c]).length = a.length + 1 := by simp
  rw [h1, ← h2, List.drop_left]

lemma parseQueryAux_mono (n : Nat) :
    ∀ (q : Chars), q.length ≤ n → ∀ (f1 f2 : Nat) (r : ConnectionString),
      q.length ≤ f1 → q.length ≤ f2 →
      parseQueryAux f1 r q = parseQueryAux f2 r q := by
  induction n with
  | zero =>
    intro q hq f1 f2 r h1 h2
    have : q = [] := List.eq_nil_of_length_eq_zero (Nat.le_zero.mp hq)
    subst this
    cases f1 <;> cases f2 <;> simp [parseQueryAux]
  | succ n ih =>
    intro q hq f1 f2 r h1 h2
    rcases q with _ | ⟨x, q'⟩
    · cases f1 <;> cases f2 <;> simp [parseQueryAux]
    · obtain ⟨g1, rfl⟩ : ∃ g, f1 = g + 1 := ⟨f1 - 1, by simp at h1; omega⟩
      obtain ⟨g2, rfl⟩ : ∃ g, f2 = g + 1 := ⟨f2 - 1, by simp at h2; omega⟩
      simp only [parseQueryAux, List.isEmpty_cons, if_false, Bool.false_eq_true]
      cases hf : findChar (x :: q') '&' with
      | none => simp [hf]
      | some amp =>
        simp only [hf]
        cases ha : applyParam r ((x :: q').take amp) with
        | none => simp [ha]
        | some r' =>
          simp only [ha]
          have hd : ((x :: q').drop (amp + 1)).length ≤ n := by
            simp only [List.length_drop, List.length_cons]
            simp only [List.length_cons] at hq
            omega
          exact ih _ hd g1 g2 r'
            (by simp only [List.length_drop, List.length_cons] at *; omega)
            (by simp only [List.length_drop, List.length_cons] at *; omega)

lemma parseQueryAux_append_amp (r : ConnectionString) (a b : Chars)
    (ha : ∀ x ∈ a, x ≠ '&') (fuel : Nat)
    (hfuel : (a ++ '&' :: b).length ≤ fuel) :
    parseQueryAux fuel r (a ++ '&' :: b) =
      match applyParam r a with
      | none => none
      | some r' => parseQueryAux b.length r' b := by
  obtain ⟨g, rfl⟩ : ∃ g, fuel = g + 1 := by
    refine ⟨fuel - 1, ?_⟩
    simp only [List.length_append, List.length_cons] at hfuel
    omega
  have hne : (a ++ '&' :: b).isEmpty = false := by
    cases a <;> rfl
  rw [parseQueryAux]
  rw [if_neg (by simp [hne])]
  rw [findChar_append_self a b '&' ha]
  simp only [List.take_left, drop_append_cons]
  cases applyParam r a with
  | none => rfl
  | some r' =>
    have hb : b.length ≤ g := by
      simp only [List.length_append, List.length_cons] at hfuel
      omega
    exact parseQueryAux_mono b.length b le_rfl g b.length r' hb le_rfl

lemma parseQueryAux_no_amp (r : ConnectionString) (q : Chars)
    (hq : ∀ x ∈ q, x ≠ '&') (fuel : Nat) (hfuel : q.length ≤ fuel) :
    parseQueryAux fuel r q = applyParam r q := by
  rcases q with _ | ⟨x, q'⟩
  · cases fuel <;> simp [parseQueryAux, applyParam, findChar]
  · obtain ⟨g, rfl⟩ : ∃ g, fuel = g + 1 := by
      refine ⟨fuel - 1, ?_⟩
      simp at hfuel
      omega
    rw [parseQueryAux]
    rw [if_neg (by simp)]
    rw [findChar_eq_none _ _ hq]

lemma applyParam_split (r : ConnectionString) (key value : Chars)
    (hkey : ∀ x ∈ key, x ≠ '=') :
    applyParam r (key ++ '=' :: value) =
      if key = "buffer_size".toList then
        (stoull value).map fun v => { r with buffer_size := v }
      else if key = "metadata_size".toList then
        (stoull value).map fun v => { r with metadata_size := v }
      else if key = "mode".toList then some { r with mode := value }
      else some r := by
  unfold applyParam
  rw [findChar_append_self key value '=' hkey]
  simp only [List.take_left, drop_append_cons]

/-! ### Decimal printing and `stoull` round trip -/

lemma digitChar_isDigit (d : Nat) (h : d < 10) : (digitChar d).isDigit = true := by
  interval_cases d <;> decide

lemma digitChar_toNat (d : Nat) (h : d < 10) : (digitChar d).toNat = 48 + d := by
  interval_cases d <;> decide

lemma natCharsAux_digits (fuel : Nat) :
    ∀ n, n < fuel → ∀ c ∈ natCharsAux fuel n, c.isDigit = true := by
  induction fuel with
  | zero => omega
  | succ fuel ih =>
    intro n h c hc
    by_cases h10 : n < 10
    · rw [natCharsAux, if_pos h10] at hc
      simp only [List.mem_singleton] at hc
      subst hc
      exact digitChar_isDigit n h10
    · rw [natCharsAux, if_neg h10] at hc
      rcases List.mem_append.mp hc with hc | hc
      · have hlt : n / 10 < fuel := by
          have := Nat.div_lt_self (by omega : 0 < n) (by omega : 1 < 10)
          omega
        exact ih (n / 10) hlt c hc
      · simp only [List.mem_singleton] at hc
        subst hc
        exact digitChar_isDigit (n % 10) (Nat.mod_lt n (by omega))

lemma natChars_digits (n : Nat) : ∀ c ∈ natChars n, c.isDigit = true :=
  natCharsAux_digits (n + 1) n (by omega)

lemma foldl_natCharsAux (fuel : Nat) :
    ∀ n, n < fuel → ∀ acc,
      (natCharsAux fuel n).foldl (fun acc c => acc * 10 + (c.toNat - 48)) acc =
        acc * 10 ^ (natCharsAux fuel n).length + n := by
  induction fuel with
  | zero => omega
  | succ fuel ih =>
    intro n h acc
    by_cases h10 : n < 10
    · rw [natCharsAux, if_pos h10]
      simp [digitChar_toNat n h10]
    · rw [natCharsAux, if_neg h10]
      have hlt : n / 10 < fuel := by
        have := Nat.div_lt_self (by omega : 0 < n) (by omega : 1 < 10)
        omega
      rw [List.foldl_append, ih (n / 10) hlt acc]
      simp only [List.foldl_cons, List.foldl_nil, List.length_append,
        List.length_singleton, digitChar_toNat (n % 10) (Nat.mod_lt n (by omega))]
      have hdm : n / 10 * 10 + n % 10 = n := by omega
      have hpow : 10 ^ ((natCharsAux fuel (n / 10)).length + 1) =
          10 ^ (natCharsAux fuel (n / 10)).length * 10 := pow_succ 10 _
      rw [hpow]
      ring_nf
      omega

lemma digitsVal_natChars (n : Nat) : digitsVal (natChars n) = n := by
  unfold digitsVal natChars
  rw [foldl_natCharsAux (n + 1) n (by omega) 0]
  simp

lemma takeWhile_of_all (l : Chars) (p : Char → Bool) (h : ∀ c ∈ l, p c = true) :
    l.takeWhile p = l := by
  induction l with
  | nil => rfl
  | cons x l ih =>
    rw [List.takeWhile_cons, if_pos (h x (by simp))]
    rw [ih (fun c hc => h c (by simp [hc]))]

lemma natChars_ne_nil (n : Nat) : natChars n ≠ [] := by
  unfold natChars
  rw [natCharsAux]
  by_cases h10 : n < 10
  · simp [h10]
  · simp [h10]

lemma stoull_natChars (n : Nat) (h : n < 2 ^ 64) : stoull (natChars n) = some n := by
  unfold stoull
  rw [takeWhile_of_all _ _ (natChars_digits n)]
  rw [if_neg (by simp [natChars_ne_nil n])]
  rw [digitsVal_natChars n, if_pos h]

lemma ne_of_isDigit (c d : Char) (h : c.isDigit = true) (hd : d.isDigit = false) :
    c ≠ d := by
  intro he
  subst he
  rw [h] at hd
  cases hd

lemma extract_scheme_shm (rest : Chars) :
    extract_scheme ("shm://".toList ++ rest) = some ("shm".toList, rest) := by
  have hfind : findSub ("shm://".toList ++ rest) ("://".toList) = some 3 := by
    show findSub ('s' :: 'h' :: 'm' :: ':' :: '/' :: '/' :: rest) (':' :: '/' :: '/' :: []) =
      some 3
    have p1 : ([':', '/', '/'].isPrefixOf
        ('s' :: 'h' :: 'm' :: ':' :: '/' :: '/' :: rest)) = false := rfl
    have p2 : ([':', '/', '/'].isPrefixOf
        ('h' :: 'm' :: ':' :: '/' :: '/' :: rest)) = false := rfl
    have p3 : ([':', '/', '/'].isPrefixOf
        ('m' :: ':' :: '/' :: '/' :: rest)) = false := rfl
    have p4 : ([':', '/', '/'].isPrefixOf (':' :: '/' :: '/' :: rest)) = true := by
      cases rest <;> rfl
    rw [findSub, if_neg (by simp [p1])]
    rw [findSub, if_neg (by simp [p2])]
    rw [findSub, if_neg (by simp [p3])]
    rw [findSub, if_pos p4]
    rfl
  rw [extract_scheme, hfind]
  rfl

lemma extract_authority_name (bn rest : Chars)
    (hslash : ∀ x ∈ bn, x ≠ '/') (hquest : ∀ x ∈ bn, x ≠ '?') :
    extract_authority (bn ++ '?' :: rest) = (bn, '?' :: rest) := by
  have hq : findChar (bn ++ '?' :: rest) '?' = some bn.length :=
    findChar_append_self bn rest '?' hquest
  have hs : findChar (bn ++ '?' :: rest) '/' =
      (findChar ('?' :: rest) '/').map (· + bn.length) :=
    findChar_append_of_ne bn _ '/' hslash
  rw [extract_authority, hq, hs]
  have hmin : minOpt ((findChar ('?' :: rest) '/').map (· + bn.length))
      (some bn.length) = some bn.length := by
    cases hf : findChar ('?' :: rest) '/' with
    | none => rfl
    | some j =>
      simp only [Option.map_some', minOpt]
      rw [Nat.min_eq_right (by omega)]
  rw [hmin]
  simp only [List.take_left]
  rw [List.drop_left]

lemma extract_query_question (rest : Chars) :
    extract_query ('?' :: rest) = rest := rfl

/-- **C10 counterexample.** The claim fails as stated: `c10Bad` has
protocol Shm and a non-empty buffer name free of `'/'`, `'?'`, `':'`, yet
parsing its rendering yields `mode = "a"` while `c10Bad.mode = "a&b"` —
the `'&'` inside `mode` is taken as a parameter separator. -/
theorem c10_roundtrip_counterexample :
    c10Bad.protocol = protoShm ∧
    c10Bad.buffer_name = some ("buf".toList) ∧
    "buf".toList ≠ [] ∧
    (∀ x ∈ "buf".toList, x ≠ '/' ∧ x ≠ '?' ∧ x ≠ ':') ∧
    (ConnectionString.parse (ConnectionString.to_string c10Bad)).map
        (fun c => c.mode) = some ("a".toList) ∧
    c10Bad.mode = "a&b".toList := by
  decide

/-- **C10 (amended).** For every shared-memory `ConnectionString` with a
non-empty buffer name containing none of `'/'`, `'?'`, `':'` — and whose
`mode` contains no `'&'` (sizes within the `size_t` range) — `parse` is a
left inverse of `to_string` on protocol, buffer name, the two sizes and
mode. -/
theorem c10_amended_roundtrip (c : ConnectionString) (bn : Chars)
    (hp : c.protocol = protoShm) (hbn : c.buffer_name = some bn) (hne : bn ≠ [])
    (hslash : ∀ x ∈ bn, x ≠ '/') (hquest : ∀ x ∈ bn, x ≠ '?')
    (hcolon : ∀ x ∈ bn, x ≠ ':')
    (hmode : ∀ x ∈ c.mode, x ≠ '&')
    (hbs : c.buffer_size < 2 ^ 64) (hms : c.metadata_size < 2 ^ 64) :
    ∃ c', ConnectionString.parse (ConnectionString.to_string c) = some c' ∧
      c'.protocol = c.protocol ∧ c'.buffer_name = c.buffer_name ∧
      c'.buffer_size = c.buffer_size ∧ c'.metadata_size = c.metadata_size ∧
      c'.mode = c.mode := by
  have hkey1 : ∀ x ∈ ("mode".toList : Chars), x ≠ '&' := by decide
  have hkey2 : ∀ x ∈ ("buffer_size".toList : Chars), x ≠ '&' := by decide
  have hkey3 : ∀ x ∈ ("metadata_size".toList : Chars), x ≠ '&' := by decide
  have hQmo : ∀ x ∈ ("mode".toList ++ '=' :: c.mode : Chars), x ≠ '&' := by
    intro x hx
    rcases List.mem_append.mp hx with hx | hx
    · exact hkey1 x hx
    · rcases List.mem_cons.mp hx with rfl | hx
      · decide
      · exact hmode x hx
  have hQb : ∀ x ∈ ("buffer_size".toList ++ '=' :: natChars c.buffer_size : Chars),
      x ≠ '&' := by
    intro x hx
    rcases List.mem_append.mp hx with hx | hx
    · exact hkey2 x hx
    · rcases List.mem_cons.mp hx with rfl | hx
      · decide
      · exact ne_of_isDigit x '&' (natChars_digits _ x hx) (by decide)
  have hQm : ∀ x ∈ ("metadata_size".toList ++ '=' :: natChars c.metadata_size : Chars),
      x ≠ '&' := by
    intro x hx
    rcases List.mem_append.mp hx with hx | hx
    · exact hkey3 x hx
    · rcases List.mem_cons.mp hx with rfl | hx
      · decide
      · exact ne_of_isDigit x '&' (natChars_digits _ x hx) (by decide)
  have hts : ConnectionString.to_string c =
      "shm://".toList ++ (bn ++ '?' ::
        (("buffer_size".toList ++ '=' :: natChars c.buffer_size) ++
         '&' :: (("metadata_size".toList ++ '=' :: natChars c.metadata_size) ++
         '&' :: ("mode".toList ++ '=' :: c.mode)))) := by
    unfold ConnectionString.to_string
    rw [if_pos hp, hbn]
    simp only [Option.getD_some, List.append_assoc]
    rfl
  have hbne : bn.isEmpty = false := by
    cases bn with
    | nil => exact absurd rfl hne
    | cons x l => rfl
  have hparse1 : ConnectionString.parse (ConnectionString.to_string c) =
      parseQuery { protocol := protoShm, buffer_name := some bn }
        (("buffer_size".toList ++ '=' :: natChars c.buffer_size) ++
         '&' :: (("metadata_size".toList ++ '=' :: natChars c.metadata_size) ++
         '&' :: ("mode".toList ++ '=' :: c.mode))) := by
    rw [hts]
    unfold ConnectionString.parse
    have hemp : ("shm://".toList ++ (bn ++ '?' ::
        (("buffer_size".toList ++ '=' :: natChars c.buffer_size) ++
         '&' :: (("metadata_size".toList ++ '=' :: natChars c.metadata_size) ++
         '&' :: ("mode".toList ++ '=' :: c.mode))))).isEmpty = false := rfl
    have hpp : parse_protocol ("shm".toList) = some protoShm := rfl
    have hea : ∀ rest, extract_authority (bn ++ '?' :: rest) = (bn, '?' :: rest) :=
      fun rest => extract_authority_name bn rest hslash hquest
    simp only [hemp, Bool.false_eq_true, if_false, extract_scheme_shm, hpp, hea,
      extract_query_question, hbne, not_false_eq_true, if_true, eq_self_iff_true]
  have hpq : parseQuery { protocol := protoShm, buffer_name := some bn }
        (("buffer_size".toList ++ '=' :: natChars c.buffer_size) ++
         '&' :: (("metadata_size".toList ++ '=' :: natChars c.metadata_size) ++
         '&' :: ("mode".toList ++ '=' :: c.mode))) =
      some { protocol := protoShm, buffer_name := some bn,
             buffer_size := c.buffer_size, metadata_size := c.metadata_size,
             mode := c.mode } := by
    unfold parseQuery
    rw [parseQueryAux_append_amp _ _ _ hQb _ le_rfl]
    rw [applyParam_split _ _ _ (by decide)]
    rw [if_pos rfl, stoull_natChars _ hbs]
    simp only [Option.map_some']
    rw [parseQueryAux_append_amp _ _ _ hQm _ le_rfl]
    rw [applyParam_split _ _ _ (by decide)]
    rw [if_neg (by decide), if_pos rfl, stoull_natChars _ hms]
    simp only [Option.map_some']
    rw [parseQueryAux_no_amp _ _ hQmo _ le_rfl]
    rw [applyParam_split _ _ _ (by decide)]
    rw [if_neg (by decide), if_neg (by decide), if_pos rfl]
  refine ⟨_, hparse1.trans hpq, ?_, ?_, rfl, rfl, rfl⟩
  · exact hp.symm
  · exact hbn.symm

/-! ### Ring-buffer helper lemmas -/

lemma length_encodeLE (w n : Nat) : (encodeLE w n).length = w := by
  induction w generalizing n with
  | zero => rfl
  | succ w ih => simp [encodeLE, ih]

lemma length_encodeHeader (seq len : Nat) :
    (encodeHeader seq len).length = HEADER_SIZE := by
  simp [encodeHeader, length_encodeLE, HEADER_SIZE]

lemma decodeLEList_encodeLE (w n : Nat) (h : n < 256 ^ w) :
    decodeLEList (encodeLE w n) = n := by
  induction w generalizing n with
  | zero =>
    simp only [pow_zero, Nat.lt_one_iff] at h
    subst h
    rfl
  | succ w ih =>
    have hdiv : n / 256 < 256 ^ w := by
      rw [Nat.div_lt_iff_lt_mul (by omega)]
      calc n < 256 ^ (w + 1) := h
        _ = 256 ^ w * 256 := by ring
    simp only [encodeLE, decodeLEList, List.foldr_cons]
    have := ih (n / 256) hdiv
    simp only [decodeLEList] at this
    rw [this]
    omega

lemma decodeHeader_encodeHeader (seq len : Nat) (hs : seq < 2 ^ 64)
    (hl : len < 2 ^ 64) : decodeHeader (encodeHeader seq len) = (seq, len) := by
  have h256 : (256 : Nat) ^ 8 = 2 ^ 64 := by norm_num
  unfold decodeHeader encodeHeader
  rw [List.take_left' (length_encodeLE 8 seq), List.drop_left' (length_encodeLE 8 seq)]
  rw [List.take_of_length_le (by rw [length_encodeLE])]
  rw [decodeLEList_encodeLE 8 seq (by omega), decodeLEList_encodeLE 8 len (by omega)]

lemma length_writeBytes (ring data : List Nat) (pos : Nat)
    (h : pos + data.length ≤ ring.length) :
    (writeBytes ring pos data).length = ring.length := by
  simp only [writeBytes, List.length_append, List.length_take, List.length_drop]
  omega

lemma length_readBytes (ring : List Nat) (pos len : Nat) :
    (readBytes ring pos len).length = min len (ring.length - pos) := by
  simp [readBytes]

lemma readBytes_writeBytes_self (ring data : List Nat) (pos : Nat)
    (h : pos + data.length ≤ ring.length) :
    readBytes (writeBytes ring pos data) pos data.length = data := by
  unfold readBytes writeBytes
  have hlen : (ring.take pos).length = pos := by
    rw [List.length_take]
    omega
  rw [List.drop_left' hlen, List.take_left]

lemma readBytes_writeBytes_before (ring data : List Nat) (pos pos2 len2 : Nat)
    (h : pos2 + len2 ≤ pos) (hp : pos ≤ ring.length) :
    readBytes (writeBytes ring pos data) pos2 len2 = readBytes ring pos2 len2 := by
  unfold readBytes writeBytes
  have hlen : (ring.take pos).length = pos := by
    rw [List.length_take]
    omega
  rw [List.drop_append_eq_append_drop, List.take_append_eq_append_take]
  have h2 : len2 - ((ring.take pos).drop pos2).length = 0 := by
    rw [List.length_drop, hlen]
    omega
  rw [h2, List.take_zero, List.append_nil, List.drop_take, List.take_take]
  rw [Nat.min_eq_left (by omega)]

lemma readBytes_split (ring : List Nat) (pos a b : Nat) :
    readBytes ring pos (a + b) = readBytes ring pos a ++ readBytes ring (pos + a) b := by
  unfold readBytes
  rw [List.take_add]
  rw [List.drop_drop]

lemma totalSize_nil : totalSize [] = 0 := rfl

lemma totalSize_cons (p : List Nat) (ps : List (List Nat)) :
    totalSize (p :: ps) = frameBytes p + totalSize ps := by
  simp [totalSize]

lemma totalSize_append (l1 l2 : List (List Nat)) :
    totalSize (l1 ++ l2) = totalSize l1 + totalSize l2 := by
  simp [totalSize]

lemma length_mul_le_totalSize (ps : List (List Nat)) :
    HEADER_SIZE * ps.length ≤ totalSize ps := by
  induction ps with
  | nil => simp [totalSize_nil]
  | cons p ps ih =>
    rw [totalSize_cons]
    simp only [List.length_cons, frameBytes, HEADER_SIZE] at *
    omega

lemma totalSize_split_at (ps : List (List Nat)) (j : Nat) :
    totalSize ps = totalSize (ps.take j) + totalSize (ps.drop j) := by
  rw [← totalSize_append, List.take_append_drop]

lemma totalSize_take_succ (ps : List (List Nat)) (j : Nat) (hj : j < ps.length) :
    totalSize (ps.take (j + 1)) = totalSize (ps.take j) + frameBytes (ps.get ⟨j, hj⟩) := by
  induction ps generalizing j with
  | nil => simp at hj
  | cons p ps ih =>
    cases j with
    | zero =>
      simp [totalSize_cons, totalSize_nil]
    | succ j =>
      simp only [List.take_succ_cons, totalSize_cons, List.get_cons_succ]
      rw [ih j (by simpa using hj)]
      omega

lemma framesFrom_append (ring : List Nat) (l1 l2 : List (List Nat)) :
    ∀ pos seq, framesFrom ring pos seq (l1 ++ l2) ↔
      (framesFrom ring pos seq l1 ∧
       framesFrom ring (pos + totalSize l1) (seq + l1.length) l2) := by
  induction l1 with
  | nil =>
    intro pos seq
    simp [framesFrom, totalSize_nil]
  | cons p l1 ih =>
    intro pos seq
    rw [List.cons_append]
    simp only [framesFrom]
    rw [ih (pos + HEADER_SIZE + p.length) (seq + 1)]
    simp only [totalSize_cons, frameBytes, List.length_cons]
    have e1 : pos + HEADER_SIZE + p.length + totalSize l1 =
        pos + (HEADER_SIZE + p.length + totalSize l1) := by omega
    have e2 : seq + 1 + l1.length = seq + (l1.length + 1) := by omega
    rw [e1, e2]
    constructor
    · rintro ⟨h1, h2, h3, h4⟩
      exact ⟨⟨h1, h2, h3⟩, h4⟩
    · rintro ⟨⟨h1, h2, h3⟩, h4⟩
      exact ⟨h1, h2, h3, h4⟩

lemma framesFrom_writeBytes (ring data : List Nat) (wpos : Nat) (l : List (List Nat)) :
    ∀ pos seq, framesFrom ring pos seq l → pos + totalSize l ≤ wpos →
      wpos ≤ ring.length → framesFrom (writeBytes ring wpos data) pos seq l := by
  induction l with
  | nil =>
    intro pos seq _ _ _
    trivial
  | cons p l ih =>
    intro pos seq h hle hwl
    obtain ⟨h1, h2, h3⟩ := h
    rw [totalSize_cons] at hle
    simp only [frameBytes] at hle
    refine ⟨?_, ?_, ?_⟩
    · rw [readBytes_writeBytes_before ring data wpos pos HEADER_SIZE (by omega) hwl]
      exact h1
    · rw [readBytes_writeBytes_before ring data wpos (pos + HEADER_SIZE) p.length
        (by omega) hwl]
      exact h2
    · exact ih (pos + HEADER_SIZE + p.length) (seq + 1) h3 (by omega) hwl

lemma framesFrom_drop (ring : List Nat) (ps : List (List Nat))
    (h : framesFrom ring 0 0 ps) (j : Nat) (hj : j < ps.length) :
    framesFrom ring (totalSize (ps.take j)) j (ps.drop j) := by
  have h2 := framesFrom_append ring (ps.take j) (ps.drop j)
  have h3 := (h2 0 0).mp (by rw [List.take_append_drop]; exact h)
  have hl : (ps.take j).length = j := by
    rw [List.length_take]
    omega
  rw [hl] at h3
  simpa using h3.2

lemma writeFrame_step (n : Nat) (qs : List (List Nat)) (p : List Nat)
    (s s' : RingBuffer) (hinv : WriterInv n qs s) (h : writeFrame s p = some s') :
    WriterInv n (qs ++ [p]) s' := by
  obtain ⟨hps, hrl, hwp, hrp, hfb, hts, hwc, hrc, hff⟩ := hinv
  unfold writeFrame at h
  rw [hps, hwp, hfb, hwc] at h
  by_cases hc : n - totalSize qs < HEADER_SIZE + p.length
  · rw [if_pos hc, if_pos (by omega)] at h
    cases h
  · rw [if_neg hc, if_neg hc] at h
    have hs' := Option.some.inj h
    subst hs'
    have hdata : (encodeHeader qs.length p.length ++ p).length =
        HEADER_SIZE + p.length := by
      rw [List.length_append, length_encodeHeader]
    have hle : totalSize qs + (HEADER_SIZE + p.length) ≤ n := by omega
    have htot : totalSize (qs ++ [p]) = totalSize qs + (HEADER_SIZE + p.length) := by
      rw [totalSize_append, totalSize_cons, totalSize_nil]
      simp [frameBytes]
    have hrl2 : (writeBytes s.ring (totalSize qs)
        (encodeHeader qs.length p.length ++ p)).length = n := by
      rw [length_writeBytes]
      · exact hrl
      · rw [hdata, hrl]
        exact hle
    refine ⟨rfl, hrl2, ?_, hrp, ?_, ?_, ?_, hrc, ?_⟩
    · show totalSize qs + (HEADER_SIZE + p.length) = totalSize (qs ++ [p])
      rw [htot]
    · show n - totalSize qs - (HEADER_SIZE + p.length) = n - totalSize (qs ++ [p])
      rw [htot]
      omega
    · rw [htot]
      omega
    · show qs.length + 1 = (qs ++ [p]).length
      simp
    · rw [framesFrom_append]
      constructor
      · exact framesFrom_writeBytes s.ring _ (totalSize qs) qs 0 0 hff
          (by omega) (by rw [hrl]; omega)
      · have hself := readBytes_writeBytes_self s.ring
          (encodeHeader qs.length p.length ++ p) (totalSize qs)
          (by rw [hdata, hrl]; exact hle)
        rw [hdata, readBytes_split _ (totalSize qs) HEADER_SIZE p.length] at hself
        have hlen16 : (readBytes (writeBytes s.ring (totalSize qs)
            (encodeHeader qs.length p.length ++ p)) (totalSize qs)
            HEADER_SIZE).length = HEADER_SIZE := by
          rw [length_readBytes, hrl2]
          omega
        have hinj := List.append_inj hself
          (by rw [hlen16, length_encodeHeader])
        simp only [Nat.zero_add, framesFrom]
        exact ⟨hinj.1, hinj.2, trivial⟩

lemma writerInv_init (n : Nat) : WriterInv n [] (initRing n) := by
  refine ⟨rfl, ?_, ?_, rfl, ?_, ?_, rfl, rfl, trivial⟩
  · simp [initRing]
  · simp [initRing, totalSize_nil]
  · simp [initRing, totalSize_nil]
  · simp [totalSize_nil]

lemma writeFrames_inv (n : Nat) (ps : List (List Nat)) :
    ∀ (qs : List (List Nat)) (s s' : RingBuffer),
      WriterInv n qs s → writeFrames s ps = some s' → WriterInv n (qs ++ ps) s' := by
  induction ps with
  | nil =>
    intro qs s s' hi h
    rw [writeFrames] at h
    obtain rfl := Option.some.inj h
    simpa using hi
  | cons p ps ih =>
    intro qs s s' hi h
    rw [writeFrames] at h
    cases hw : writeFrame s p with
    | none =>
      rw [hw] at h
      cases h
    | some s1 =>
      rw [hw] at h
      have h1 := writeFrame_step n qs p s s1 hi hw
      have h2 := ih (qs ++ [p]) s1 s' h1 h
      rw [List.append_assoc] at h2
      simpa using h2

lemma readFrame_step (n : Nat) (hn : n < 2 ^ 64) (ps : List (List Nat)) (j : Nat)
    (s : RingBuffer) (hinv : ReaderInv n ps j s) (hj : j < ps.length) :
    ∃ s', readFrame s = some (ps.get ⟨j, hj⟩, s') ∧ ReaderInv n ps (j + 1) s' := by
  obtain ⟨hps, hrl, htot, hrp, hwc, hrc, hjle, hff⟩ := hinv
  have h64 : (2 : Nat) ^ 64 = 18446744073709551616 := by norm_num
  rw [h64] at hn
  have hcd : ps.get ⟨j, hj⟩ :: ps.drop (j + 1) = ps.drop j :=
    List.getElem_cons_drop ps j hj
  have hframes := framesFrom_drop s.ring ps hff j hj
  rw [← hcd] at hframes
  obtain ⟨f1, f2, _⟩ := hframes
  have hdsplit : totalSize (ps.drop j) =
      HEADER_SIZE + (ps.get ⟨j, hj⟩).length + totalSize (ps.drop (j + 1)) := by
    rw [← hcd, totalSize_cons]
    simp [frameBytes]
  have hts := totalSize_split_at ps j
  have hb1 : totalSize (ps.take j) + HEADER_SIZE + (ps.get ⟨j, hj⟩).length ≤ n := by
    omega
  have h16 := length_mul_le_totalSize ps
  simp only [HEADER_SIZE] at h16
  have hH : HEADER_SIZE = 16 := rfl
  have hj64 : j < 2 ^ 64 := by
    rw [h64]
    omega
  have hL64 : (ps.get ⟨j, hj⟩).length < 2 ^ 64 := by
    rw [h64]
    omega
  have hLsent : (ps.get ⟨j, hj⟩).length ≠ WRAP_SENTINEL := by
    unfold WRAP_SENTINEL
    rw [h64]
    omega
  have hdec : decodeHeader (readBytes s.ring (totalSize (ps.take j)) HEADER_SIZE) =
      (j, (ps.get ⟨j, hj⟩).length) := by
    rw [f1]
    exact decodeHeader_encodeHeader j _ hj64 hL64
  unfold readFrame readFrameAt
  rw [hwc, hrc, hps, hrp]
  rw [if_neg (show ¬ ps.length ≤ j by omega)]
  rw [if_neg (show ¬ n - totalSize (ps.take j) < HEADER_SIZE by omega)]
  simp only [hdec]
  rw [if_neg hLsent]
  rw [if_neg hLsent]
  rw [if_neg (show ¬ j ≠ j % 2 ^ 64 by rw [Nat.mod_eq_of_lt hj64]; exact not_ne_iff.mpr rfl)]
  rw [if_neg (show ¬ n < totalSize (ps.take j) + HEADER_SIZE + (ps.get ⟨j, hj⟩).length
    by omega)]
  rw [f2]
  refine ⟨_, rfl, rfl, hrl, htot, ?_, rfl, rfl, by omega, hff⟩
  show totalSize (ps.take j) + HEADER_SIZE + (ps.get ⟨j, hj⟩).length =
    totalSize (ps.take (j + 1))
  rw [totalSize_take_succ ps j hj]
  simp only [frameBytes]
  omega

lemma readFrames_drop (n : Nat) (hn : n < 2 ^ 64) (ps : List (List Nat)) :
    ∀ (k j : Nat) (s : RingBuffer), ReaderInv n ps j s → j + k = ps.length →
      readFrames s k = some (ps.drop j) := by
  intro k
  induction k with
  | zero =>
    intro j s hinv hlen
    have hj : j = ps.length := by omega
    subst hj
    rw [List.drop_length]
    rfl
  | succ k ih =>
    intro j s hinv hlen
    have hj : j < ps.length := by omega
    obtain ⟨s', hread, hinv'⟩ := readFrame_step n hn ps j s hinv hj
    rw [readFrames]
    simp only [hread]
    simp only [ih (j + 1) s' hinv' (by omega)]
    have hcd : ps.get ⟨j, hj⟩ :: ps.drop (j + 1) = ps.drop j :=
      List.getElem_cons_drop ps j hj
    rw [hcd]

/-- **C6.** Round-trip fidelity of the payload ring: for every sequence of
frames written into a fresh buffer with all writes succeeding and no
concurrent overlap, reading them back yields exactly the written frames —
same order, same lengths, byte-identical contents. -/
theorem c6_ring_round_trip (n : Nat) (hn : n < 2 ^ 64) (ps : List (List Nat))
    (s : RingBuffer) (hw : writeFrames (initRing n) ps = some s) :
    readFrames s ps.length = some ps := by
  have hwi := writeFrames_inv n ps [] (initRing n) s (writerInv_init n) hw
  rw [List.nil_append] at hwi
  obtain ⟨hps, hrl, hwp, hrp, hfb, hts, hwc, hrc, hff⟩ := hwi
  have hri : ReaderInv n ps 0 s := by
    refine ⟨hps, hrl, hts, ?_, hwc, hrc, Nat.zero_le _, hff⟩
    simpa [totalSize_nil] using hrp
  have h := readFrames_drop n hn ps ps.length 0 s hri (by omega)
  simpa using h

/-- **C6 witness.** Writing the two frames `[1,2,3]` and `[4,5]` into a
fresh 64-byte ring and reading two frames back returns them unchanged. -/
theorem c6_ring_round_trip_witness :
    readFrames c6State c6Frames.length = some c6Frames :=
  c6_ring_round_trip 64 (by norm_num) c6Frames c6State (by decide)

/-- **C10 witness (amended).** The round trip holds for the concrete
connection string `shm://buf?buffer_size=123&metadata_size=45&mode=duplex`. -/
theorem c10_amended_roundtrip_witness :
    ∃ c', ConnectionString.parse (ConnectionString.to_string c10Good) = some c' ∧
      c'.protocol = c10Good.protocol ∧ c'.buffer_name = c10Good.buffer_name ∧
      c'.buffer_size = c10Good.buffer_size ∧
      c'.metadata_size = c10Good.metadata_size ∧
      c'.mode = c10Good.mode :=
  c10_amended_roundtrip c10Good ("buf".toList) rfl rfl (by decide) (by decide)
    (by decide) (by decide) (by decide) (by decide) (by decide)

end RocketWelder
